import Mathlib

/-!
Verification development for the hari-jeopardy host engine.

The definitions below are a shallow embedding of the host-authoritative game
logic of `src/components/HostView.tsx` together with the peer-messaging layer
of `src/services/gameSync.ts` (types from the repository's `types.ts`).
JavaScript numbers used as epoch-millisecond timestamps are modelled as `Nat`;
score values as `Int` (scores may go negative); optional fields as `Option`;
JS truthiness of numeric lock timestamps (where `0` counts as "no lock") is
modelled explicitly in `lockActive`.  Audio calls, logging and the actual
network sends are effects outside the state; the directed `sendToPeer` calls
made by the handler are returned as an explicit outbox.
-/

namespace Jeopardy

/-- Game phase, from `GameState.status` in `types.ts`. -/
inductive Status
  | LOBBY
  | INTRO
  | PLAYING
  | QUESTION_ACTIVE
  | BUZZED
  | REVEAL
  | FINISHED
  deriving DecidableEq, Repr

/-- The `Question` interface of `types.ts`.  The optional `isGolden` / `isRed`
flags are modelled as `Bool` with `false` for the absent (undefined) case. -/
structure Question where
  id : String
  value : Int
  text : String
  answer : String
  isAnswered : Bool
  category : String
  isGolden : Bool := false
  isRed : Bool := false
  deriving DecidableEq, Repr

/-- The `Category` interface of `types.ts`. -/
structure Category where
  title : String
  questions : List Question
  deriving DecidableEq, Repr

/-- The `Player` interface of `types.ts` (the unused legacy `buzzTime` field is
omitted; no handler reads or writes it). -/
structure Player where
  id : String
  name : String
  score : Int
  isBuzzed : Bool
  buzzerLockUntil : Option Nat := none
  deriving DecidableEq, Repr

/-- The `GameState` interface of `types.ts`. -/
structure GameState where
  roomCode : String
  status : Status
  activeQuestion : Option Question := none
  activePlayerId : Option String := none
  players : List Player
  categories : List Category
  theme : String
  timer : Int
  buzzerLockUntil : Option Nat := none
  revealTimer : Option Nat := none
  isHostControllerConnected : Bool := false
  deriving DecidableEq, Repr

/-- The authoritative host-side state: the `GameState` plus the module-level
`hostControllerPeerIdRef` of `HostView.tsx`. -/
structure HostState where
  game : GameState
  hostControllerPeerId : Option String := none
  deriving DecidableEq, Repr

/-- The sub-actions of a `HOST_ACTION` envelope (§ `handlePeerMessage`). -/
inductive HostAction
  | CORRECT
  | INCORRECT
  | CONTINUE
  | SELECT_QUESTION (questionId : String)
  | RENAME_PLAYER (playerId : String) (newName : String)
  | OVERRIDE_SCORE (playerId : String) (newScore : Int)
  | KICK_PLAYER (playerId : String)
  | START_GAME
  | SKIP
  | RELEASE_BUZZER
  deriving DecidableEq, Repr

/-- The client-to-host message kinds handled by `handlePeerMessage`. -/
inductive MsgBody
  | PLAYER_JOIN (payload : Player)
  | BUZZ
  | BUZZ_LOCKED_ATTEMPT
  | HOST_ACTION (action : HostAction)
  deriving DecidableEq, Repr

/-- Host-to-one-client envelopes sent with `sendToPeer`. -/
inductive OutMsg
  | REJECTED (reason : String)
  | KICKED (reason : String)
  deriving DecidableEq, Repr

/-- An open data connection as the host's registry in `gameSync.ts` sees it:
its remote peer id and whether it is open. -/
structure Conn where
  peer : String
  isOpen : Bool
  deriving DecidableEq, Repr

/-- The `sendToPeer` of `gameSync.ts`: look the target up among the live
connections by its remote peer id and deliver only when found and open.
Returns the delivered (target, message) pair, `none` when nothing is sent. -/
def sendToPeer (conns : List Conn) (peerId : String) (msg : OutMsg) :
    Option (String × OutMsg) :=
  match conns.find? (fun c => c.peer == peerId) with
  | some c => if c.isOpen then some (peerId, msg) else none
  | none => none

/-- JS truthiness test `lockUntil && now < lockUntil` used for both the global
and the per-player buzzer locks: an absent timestamp and the timestamp `0`
(as written by `RELEASE_BUZZER`) are falsy. -/
def lockActive (lockUntil : Option Nat) (now : Nat) : Bool :=
  match lockUntil with
  | none => false
  | some t => t != 0 && decide (now < t)

/-- The scoring multiplier applied in `handleCorrect` / `handleIncorrect` and
in the remote `CORRECT` / `INCORRECT` branches: red 5x, else golden 2x, else 1. -/
def multiplier (q : Question) : Int :=
  if q.isRed then 5 else if q.isGolden then 2 else 1

/-- The categories update shared by `handleCorrect`, `skipQuestion` and the
remote `CORRECT` branch: mark every question whose id is `qid` answered. -/
def markAnswered (qid : String) (cats : List Category) : List Category :=
  cats.map fun cat =>
    { cat with questions := cat.questions.map fun q =>
        if q.id == qid then { q with isAnswered := true } else q }

/-- The `allAnswered` check of `finishReveal` and the remote `CONTINUE` branch. -/
def allAnswered (s : GameState) : Bool :=
  s.categories.all fun cat => cat.questions.all (·.isAnswered)

/-- The `finishReveal` function of `HostView.tsx` (lines 523-544): `FINISHED`
when every question is answered, else back to `PLAYING`; in both cases
`activeQuestion` and `activePlayerId` are cleared.  The remote `CONTINUE`
branch (lines 163-183) duplicates exactly this state update inline. -/
def finishReveal (s : GameState) : GameState :=
  if allAnswered s then
    { s with status := Status.FINISHED, activeQuestion := none,
             activePlayerId := none }
  else
    { s with status := Status.PLAYING, activeQuestion := none,
             activePlayerId := none }

/-- The local `handleCorrect` of `HostView.tsx` (lines 436-468).  Note the
debounce guard: it requires `status == 'QUESTION_ACTIVE'` in addition to an
active question and an active player. -/
def handleCorrect (s : GameState) : GameState :=
  match s.activeQuestion, s.activePlayerId with
  | some q, some pid =>
    if s.status = Status.QUESTION_ACTIVE then
      let points := q.value * multiplier q
      { s with
        status := Status.REVEAL
        players := s.players.map fun p =>
          if p.id == pid then { p with score := p.score + points, isBuzzed := false }
          else { p with isBuzzed := false }
        categories := markAnswered q.id s.categories
        activePlayerId := some pid
        revealTimer := some 5 }
    else s
  | _, _ => s

/-- The remote `HOST_ACTION CORRECT` branch of `handlePeerMessage` (lines
106-136): the same update as `handleCorrect` but with no `status` guard, only
the presence of `activeQuestion` and `activePlayerId`. -/
def hostActionCorrect (s : GameState) : GameState :=
  match s.activeQuestion, s.activePlayerId with
  | some q, some pid =>
    let points := q.value * multiplier q
    { s with
      status := Status.REVEAL
      players := s.players.map fun p =>
        if p.id == pid then { p with score := p.score + points, isBuzzed := false }
        else { p with isBuzzed := false }
      categories := markAnswered q.id s.categories
      activePlayerId := some pid
      revealTimer := some 5 }
  | _, _ => s

/-- The `handleIncorrect` of `HostView.tsx` (lines 470-503); the remote
`HOST_ACTION INCORRECT` branch (lines 137-162) performs the identical state
update.  Neither checks `status`.  `now` is the host's `Date.now()`. -/
def handleIncorrect (s : GameState) (now : Nat) : GameState :=
  match s.activeQuestion, s.activePlayerId with
  | some q, some pid =>
    let points := q.value * multiplier q
    { s with
      status := Status.QUESTION_ACTIVE
      players := s.players.map fun p =>
        if p.id == pid then { p with score := p.score - points, isBuzzed := false }
        else p
      activePlayerId := none
      timer := 30
      buzzerLockUntil := some (now + 1000 * 60 * 60) }
  | _, _ => s

/-- The `skipQuestion` of `HostView.tsx` (lines 505-521). -/
def skipQuestion (s : GameState) : GameState :=
  match s.activeQuestion with
  | some q =>
    { s with status := Status.REVEAL
             categories := markAnswered q.id s.categories
             activePlayerId := none }
  | none => s

/-- The `selectQuestion` of `HostView.tsx` (lines 408-434): only from
`PLAYING`; arms the global buzzer lock for one hour. -/
def selectQuestion (s : GameState) (q : Question) (now : Nat) : GameState :=
  if s.status = Status.PLAYING then
    { s with status := Status.QUESTION_ACTIVE
             activeQuestion := some q
             timer := 30
             buzzerLockUntil := some (now + 1000 * 60 * 60) }
  else s

/-- The `startGame` of `HostView.tsx` (lines 381-386): moves to `INTRO`. -/
def startGame (s : GameState) : GameState :=
  { s with status := Status.INTRO }

/-- The question lookup of the remote `SELECT_QUESTION` branch (lines
184-195): a `forEach` over the categories keeps overwriting the hit, so the
last category containing a match wins. -/
def findQuestion (cats : List Category) (qid : String) : Option Question :=
  cats.foldl
    (fun acc cat =>
      match cat.questions.find? (fun q => q.id == qid) with
      | some q => some q
      | none => acc)
    none

/-- The `HOST_ACTION` dispatch of `handlePeerMessage` (lines 104-230).  The
result pairs the next host state with the list of `sendToPeer` calls the
branch makes. -/
def handleHostAction (h : HostState) (a : HostAction) (now : Nat) :
    HostState × List (String × OutMsg) :=
  let s := h.game
  match a with
  | .CORRECT => ({ h with game := hostActionCorrect s }, [])
  | .INCORRECT => ({ h with game := handleIncorrect s now }, [])
  | .CONTINUE => ({ h with game := finishReveal s }, [])
  | .SELECT_QUESTION qid =>
    match findQuestion s.categories qid with
    | some q =>
      if q.isAnswered = false ∧ s.status = Status.PLAYING then
        ({ h with game := selectQuestion s q now }, [])
      else (h, [])
    | none => (h, [])
  | .RENAME_PLAYER pid newName =>
    ({ h with game := { s with players := s.players.map fun p =>
        if p.id == pid then { p with name := newName } else p } }, [])
  | .OVERRIDE_SCORE pid newScore =>
    ({ h with game := { s with players := s.players.map fun p =>
        if p.id == pid then { p with score := newScore } else p } }, [])
  | .KICK_PLAYER pid =>
    ({ h with game := { s with players := s.players.filter fun p => p.id != pid } },
     [(pid, OutMsg.KICKED "You have been kicked by the host.")])
  | .START_GAME => ({ h with game := startGame s }, [])
  | .SKIP => ({ h with game := skipQuestion s }, [])
  | .RELEASE_BUZZER =>
    ({ h with game := { s with buzzerLockUntil := some 0 } }, [])

/-- The `handlePeerMessage` of `HostView.tsx` (lines 40-232).  `senderId` is
the envelope's `senderId` (the client-generated player id), `senderPeerId`
the remote id of the connection the message arrived on, `now` the host's
`Date.now()` at receipt. -/
def handlePeerMessage (h : HostState) (msg : MsgBody) (senderId : String)
    (senderPeerId : String) (now : Nat) : HostState × List (String × OutMsg) :=
  let s := h.game
  match msg with
  | .PLAYER_JOIN newPlayer =>
    if newPlayer.name == "HOST_CONTROLLER" then
      match h.hostControllerPeerId with
      | some pid =>
        if pid != senderPeerId then
          (h, [(senderPeerId,
                OutMsg.REJECTED "Another host controller is already connected.")])
        else
          ({ game := { s with isHostControllerConnected := true },
             hostControllerPeerId := some senderPeerId }, [])
      | none =>
        ({ game := { s with isHostControllerConnected := true },
           hostControllerPeerId := some senderPeerId }, [])
    else
      if (s.players.find? (fun p => p.id == newPlayer.id)).isNone then
        ({ h with game := { s with players := s.players ++ [newPlayer] } }, [])
      else (h, [])
  | .BUZZ =>
    if s.status = Status.QUESTION_ACTIVE ∧ s.activePlayerId = none then
      if (match s.players.find? (fun p => p.id == senderId) with
          | some p => lockActive p.buzzerLockUntil now
          | none => false) then (h, [])
      else if lockActive s.buzzerLockUntil now then (h, [])
      else ({ h with game := { s with activePlayerId := some senderId } }, [])
    else (h, [])
  | .BUZZ_LOCKED_ATTEMPT =>
    ({ h with game := { s with players := s.players.map fun p =>
        if p.id == senderId then { p with buzzerLockUntil := some (now + 2000) }
        else p } }, [])
  | .HOST_ACTION a => handleHostAction h a now

/-!
Board initialization (`initGame` in `HostView.tsx`, lines 234-323): after the
board generator returns the categories, three random questions are flagged
golden (via a Fisher-Yates shuffle of the flat question indices) and one
random non-golden question is flagged red (via a bounded rejection loop of at
most 100 attempts).  Randomness is modelled by explicit inputs: `js i` stands
for the shuffle's `Math.floor(Math.random() * (i + 1))` draw at loop index
`i` (reduced `% (i + 1)` to its range), and `rs` for the list of the red
loop's `Math.floor(Math.random() * qCount)` draws (reduced `% qCount`), of
which the source makes at most 100.
-/

/-- The flat question list `allQuestions` built by `initGame`. -/
def allQuestionsOf (cats : List Category) : List Question :=
  (cats.map (·.questions)).flatten

/-- One Fisher-Yates swap `[indices[i], indices[j]] = [indices[j], indices[i]]`. -/
def swapIdx (l : List Nat) (i j : Nat) : List Nat :=
  match l.get? i, l.get? j with
  | some a, some b => (l.set i b).set j a
  | _, _ => l

/-- The shuffle loop `for (i = length-1; i > 0; i--)`, with `i` counting down. -/
def fyGo (js : Nat → Nat) : Nat → List Nat → List Nat
  | 0, l => l
  | i + 1, l => fyGo js i (swapIdx l (i + 1) (js (i + 1) % (i + 2)))

/-- The shuffled index list of `initGame`, starting from `[0, ..., n-1]`. -/
def shuffleIndices (js : Nat → Nat) (n : Nat) : List Nat :=
  fyGo js (n - 1) (List.range n)

/-- The red-question rejection loop: draw an index below `qCount`, accept the
first one outside `goldenIndices`, give up with the sentinel `-1` when the
draws (at most 100 in the source) are exhausted. -/
def pickRed (rs : List Nat) (qCount : Nat) (golden : List Nat) : Int :=
  match rs with
  | [] => -1
  | r :: rest =>
    let v := r % qCount
    if golden.contains v then pickRed rest qCount golden else (v : Int)

/-- Map a position-indexed function over one category's questions, threading
the running flat-question counter `qCount`. -/
def flagQuestionsGo (f : Nat → Question → Question) : Nat → List Question → List Question
  | _, [] => []
  | k, q :: qs => f k q :: flagQuestionsGo f (k + 1) qs

/-- Map a position-indexed function over every question of the board in flat
order, as `initGame`'s `categories.map` with the mutable `qCount` does. -/
def flagCatsGo (f : Nat → Question → Question) : Nat → List Category → List Category
  | _, [] => []
  | k, c :: cs =>
    { c with questions := flagQuestionsGo f k c.questions } ::
      flagCatsGo f (k + c.questions.length) cs

/-- Apply a position-indexed question update over the whole board. -/
def flagBoard (f : Nat → Question → Question) (cats : List Category) : List Category :=
  flagCatsGo f 0 cats

/-- The golden pass: `isGolden = goldenIndices.includes(qCount)`. -/
def goldenFlag (golden : List Nat) (k : Nat) (q : Question) : Question :=
  if golden.contains k then { q with isGolden := true } else q

/-- The red pass: `isRed = qCountRed === redIndex` (with `redIndex : Int`,
`-1` when the rejection loop found nothing). -/
def redFlag (redIndex : Int) (k : Nat) (q : Question) : Question :=
  if (k : Int) = redIndex then { q with isRed := true } else q

/-- Total number of questions on the board (the final value of `qCount`). -/
def totalCount (cats : List Category) : Nat :=
  (allQuestionsOf cats).length

/-- The three golden indices: the first three entries of the shuffled index
list (`indices.slice(0, 3)`). -/
def goldenIndicesOf (js : Nat → Nat) (cats : List Category) : List Nat :=
  (shuffleIndices js (totalCount cats)).take 3

/-- The golden/red assignment of `initGame` (lines 245-293): flag the three
golden questions, then flag the red question picked by the rejection loop. -/
def initBoard (js : Nat → Nat) (rs : List Nat) (cats : List Category) :
    List Category :=
  let golden := goldenIndicesOf js cats
  let withGolden := flagBoard (goldenFlag golden) cats
  let redIndex := pickRed rs (totalCount cats) golden
  flagBoard (redFlag redIndex) withGolden

/-- Number of questions flagged golden on a board. -/
def countGolden (cats : List Category) : Nat :=
  (allQuestionsOf cats).countP (·.isGolden)

/-- Number of questions flagged red on a board. -/
def countRed (cats : List Category) : Nat :=
  (allQuestionsOf cats).countP (·.isRed)

/-!
Specification predicates used by the theorems below.
-/

/-- The active-player invariant of the spec: `activePlayerId`, when set, is
set only during `QUESTION_ACTIVE` or `REVEAL` and names a player present in
`players`.  (At most one player can be active at a time by construction:
`activePlayerId` is a single optional field.) -/
def ActiveOk (s : GameState) : Prop :=
  s.activePlayerId = none ∨
    ∃ pid ∈ s.players.map (·.id),
      s.activePlayerId = some pid ∧
      (s.status = Status.QUESTION_ACTIVE ∨ s.status = Status.REVEAL)

instance decidableActiveOk (s : GameState) : Decidable (ActiveOk s) := by
  unfold ActiveOk
  exact inferInstance

/-- Pointwise monotonicity of the answered flag for one question slot. -/
def questionLe (q q' : Question) : Prop :=
  q.isAnswered = true → q'.isAnswered = true

/-- Monotonicity of the answered flags across one category slot. -/
def catLe (c c' : Category) : Prop :=
  List.Forall₂ questionLe c.questions c'.questions

/-- Monotonicity of the answered flags across a whole board: the two boards
have the same shape and no slot goes from answered back to unanswered. -/
def boardLe (b b' : List Category) : Prop :=
  List.Forall₂ catLe b b'

/-!
Concrete states used as witnesses, counterexamples and failing inputs.
-/

/-- A scored player. -/
def pA : Player := { id := "p1", name := "Ann", score := 100, isBuzzed := false }

/-- A second scored player. -/
def pB : Player := { id := "p2", name := "Bob", score := 7, isBuzzed := false }

/-- A golden question worth 100. -/
def qW : Question :=
  { id := "q1", value := 100, text := "", answer := "", isAnswered := false,
    category := "T", isGolden := true }

/-- A plain (neither golden nor red) question worth 100. -/
def qP : Question :=
  { id := "q1", value := 100, text := "", answer := "", isAnswered := false,
    category := "T" }

/-- A `QUESTION_ACTIVE` state with `qW` live and player `p1` answering. -/
def sW1 : GameState :=
  { roomCode := "R", status := Status.QUESTION_ACTIVE, activeQuestion := some qW,
    activePlayerId := some "p1", players := [pA, pB],
    categories := [{ title := "T", questions := [qW] }], theme := "t", timer := 30 }

/-- A `QUESTION_ACTIVE` state with nobody buzzed yet and the global buzzer
lock armed until time 1000. -/
def hW2 : HostState :=
  { game := { roomCode := "R", status := Status.QUESTION_ACTIVE,
              activeQuestion := some qP, activePlayerId := none, players := [pA],
              categories := [{ title := "T", questions := [qP] }], theme := "t",
              timer := 30, buzzerLockUntil := some 1000 } }

/-- A `QUESTION_ACTIVE` state with `p1` active and present: the invariant
`ActiveOk` holds here. -/
def h3 : HostState :=
  { game := { roomCode := "R", status := Status.QUESTION_ACTIVE,
              activeQuestion := some qP, activePlayerId := some "p1",
              players := [pA], categories := [{ title := "T", questions := [qP] }],
              theme := "t", timer := 30 } }

/-- A `REVEAL` state right after a correct resolution: `activeQuestion` and
`activePlayerId` are still set for display and the reveal countdown runs. -/
def h4 : HostState :=
  { game := { roomCode := "R", status := Status.REVEAL,
              activeQuestion := some qP, activePlayerId := some "p1",
              players := [pA],
              categories := [{ title := "T",
                               questions := [{ qP with isAnswered := true }] }],
              theme := "t", timer := 30, revealTimer := some 3 } }

/-- A lobby with one joined player. -/
def h5 : HostState :=
  { game := { roomCode := "R", status := Status.LOBBY, players := [pA],
              categories := [{ title := "T", questions := [qP] }], theme := "t",
              timer := 30 } }

/-- The host's connection registry for `h5`: player `p1` is connected through
a transport connection whose remote peer id is the PeerJS-assigned
`"peerjs-guid-1"`, distinct from the client-generated player id `"p1"`. -/
def conns5 : List Conn := [{ peer := "peerjs-guid-1", isOpen := true }]

/-- A lobby whose controller slot is already held by peer `"other"`. -/
def hW9 : HostState :=
  { game := { roomCode := "R", status := Status.LOBBY, players := [pA],
              categories := [{ title := "T", questions := [qP] }], theme := "t",
              timer := 30, isHostControllerConnected := true },
    hostControllerPeerId := some "other" }

/-- A joining controller endpoint's `PLAYER_JOIN` payload. -/
def ctrlP : Player := { id := "cid", name := "HOST_CONTROLLER", score := 0, isBuzzed := false }

/-- One board question with the given value, as the board generator emits it:
unanswered and unflagged. -/
def exQ (v : Int) : Question :=
  { id := "q", value := v, text := "", answer := "", isAnswered := false,
    category := "T" }

/-- One generated category: five questions worth 200 to 1000. -/
def exCat : Category :=
  { title := "T", questions := [exQ 200, exQ 400, exQ 600, exQ 800, exQ 1000] }

/-- A generated 5-by-5 board, the shape `initGame` receives. -/
def exCats : List Category := [exCat, exCat, exCat, exCat, exCat]

/-!
Theorems.
-/

/-- C10: the `HOST_ACTION` dispatch never inspects the sender.  Two
`HOST_ACTION` envelopes with the same action, received in the same state at
the same instant, produce the identical next state and outbox regardless of
which endpoint (scored player or controller) sent them. -/
theorem host_action_sender_independent (h : HostState) (a : HostAction)
    (sid1 peer1 sid2 peer2 : String) (now : Nat) :
    handlePeerMessage h (MsgBody.HOST_ACTION a) sid1 peer1 now =
      handlePeerMessage h (MsgBody.HOST_ACTION a) sid2 peer2 now := rfl

/-- C6: ending the `REVEAL` phase, whether through `finishReveal` (the
reveal-timer path and the on-screen CONTINUE button) or through a remote
`CONTINUE` action, moves to `FINISHED` exactly when every question of every
category is answered and to `PLAYING` otherwise, and clears both
`activeQuestion` and `activePlayerId` in every case. -/
theorem reveal_end_transition (s : GameState) (h : HostState)
    (sid peer : String) (now : Nat) :
    ((finishReveal s).status =
        if allAnswered s then Status.FINISHED else Status.PLAYING)
    ∧ (finishReveal s).activeQuestion = none
    ∧ (finishReveal s).activePlayerId = none
    ∧ ((handlePeerMessage h (MsgBody.HOST_ACTION HostAction.CONTINUE) sid peer now).1.game.status =
        if allAnswered h.game then Status.FINISHED else Status.PLAYING)
    ∧ (handlePeerMessage h (MsgBody.HOST_ACTION HostAction.CONTINUE) sid peer now).1.game.activeQuestion = none
    ∧ (handlePeerMessage h (MsgBody.HOST_ACTION HostAction.CONTINUE) sid peer now).1.game.activePlayerId = none := by
  refine ⟨?_, ?_, ?_, ?_, ?_, ?_⟩ <;>
    simp only [handlePeerMessage, handleHostAction, finishReveal] <;>
    split <;> simp

/-- C4 (failing input): in a `REVEAL` state where `activeQuestion` and
`activePlayerId` are still set for display, a remote `HOST_ACTION CORRECT`
is not dropped: it changes the state, awarding the active player another
100 points (100 becomes 200) and restarting the reveal countdown at 5. -/
theorem correct_in_reveal_changes_state :
    h4.game.status = Status.REVEAL
    ∧ (handlePeerMessage h4 (MsgBody.HOST_ACTION HostAction.CORRECT) "c" "pc" 0).1.game ≠ h4.game
    ∧ ((handlePeerMessage h4 (MsgBody.HOST_ACTION HostAction.CORRECT) "c" "pc" 0).1.game.players.map (·.score)) = [200]
    ∧ (handlePeerMessage h4 (MsgBody.HOST_ACTION HostAction.CORRECT) "c" "pc" 0).1.game.revealTimer = some 5 := by
  decide

/-- C5 (failing input): a `KICK_PLAYER` targeting the existing player `p1`
does remove them from `players`, but the `KICKED` envelope is addressed to
the client-generated player id `"p1"`, while the registry's connections are
keyed by transport peer ids, so `sendToPeer` finds no connection and no
endpoint receives the notification. -/
theorem kick_notification_undelivered :
    (handlePeerMessage h5 (MsgBody.HOST_ACTION (HostAction.KICK_PLAYER "p1")) "c" "pc" 0).1.game.players = []
    ∧ (handlePeerMessage h5 (MsgBody.HOST_ACTION (HostAction.KICK_PLAYER "p1")) "c" "pc" 0).2 =
        [("p1", OutMsg.KICKED "You have been kicked by the host.")]
    ∧ sendToPeer conns5 "p1" (OutMsg.KICKED "You have been kicked by the host.") = none := by
  decide

/-- Every question of a board returned by `markAnswered qid` whose id is
`qid` carries `isAnswered = true`. -/
theorem markAnswered_isAnswered (qid : String) (cats : List Category) :
    ∀ c ∈ markAnswered qid cats, ∀ q ∈ c.questions, q.id = qid →
      q.isAnswered = true := by
  intro c hc q hq hid
  simp only [markAnswered, List.mem_map] at hc
  obtain ⟨c0, -, rfl⟩ := hc
  simp only [List.mem_map] at hq
  obtain ⟨q0, -, rfl⟩ := hq
  by_cases hb : q0.id == qid
  · simp [hb]
  · rw [if_neg hb] at hid ⊢
    exact absurd (by exact beq_iff_eq.mpr hid) hb

/-- C1: from a `QUESTION_ACTIVE` state with live question `q` and active
player id `pid`, `handleCorrect` adds exactly `q.value * M` to every player
record named `pid` and leaves every other player's score unchanged, marking
the live question answered, while `handleIncorrect` subtracts exactly
`q.value * M` from `pid` and leaves the others unchanged, where the
multiplier `M` is 5 for a red question, else 2 for a golden one, else 1. -/
theorem correct_incorrect_scoring (s : GameState) (q : Question) (pid : String)
    (now : Nat)
    (hst : s.status = Status.QUESTION_ACTIVE)
    (hq : s.activeQuestion = some q)
    (hp : s.activePlayerId = some pid) :
    List.Forall₂
      (fun p p' => p'.score =
        if p.id = pid then
          p.score + q.value * (if q.isRed then 5 else if q.isGolden then 2 else 1)
        else p.score)
      s.players (handleCorrect s).players
    ∧ (∀ c ∈ (handleCorrect s).categories, ∀ qq ∈ c.questions,
        qq.id = q.id → qq.isAnswered = true)
    ∧ List.Forall₂
      (fun p p' => p'.score =
        if p.id = pid then
          p.score - q.value * (if q.isRed then 5 else if q.isGolden then 2 else 1)
        else p.score)
      s.players (handleIncorrect s now).players := by
  refine ⟨?_, ?_, ?_⟩
  · simp only [handleCorrect, hq, hp, hst, if_true]
    rw [List.forall₂_map_right_iff, List.forall₂_same]
    intro p _
    by_cases hpe : p.id = pid <;> simp [hpe, multiplier]
  · simp only [handleCorrect, hq, hp, hst, if_true]
    exact markAnswered_isAnswered q.id s.categories
  · simp only [handleIncorrect, hq, hp]
    rw [List.forall₂_map_right_iff, List.forall₂_same]
    intro p _
    by_cases hpe : p.id = pid <;> simp [hpe, multiplier]

/-- Witness for C1 at the concrete state `sW1`: question `qW` is golden and
worth 100, so the active player `p1` gains 200 (100 becomes 300) on the
correct branch and loses 200 on the incorrect branch, while `p2` keeps 7. -/
theorem correct_incorrect_scoring_witness :
    ((handleCorrect sW1).players.map (·.score) = [300, 7]
      ∧ (handleIncorrect sW1 0).players.map (·.score) = [-100, 7])
    ∧ (∀ c ∈ (handleCorrect sW1).categories, ∀ qq ∈ c.questions,
        qq.id = "q1" → qq.isAnswered = true) := by
  have h := correct_incorrect_scoring sW1 qW "p1" 0 rfl rfl rfl
  refine ⟨by decide, ?_⟩
  exact h.2.1

/-- C2: a `BUZZ` received while the global buzzer lock, or the sender's own
personal lock, has not expired at the host's clock leaves `activePlayerId`
exactly as it was; and a `BUZZ_LOCKED_ATTEMPT` sets the sender's personal
`buzzerLockUntil` to `now + 2000` while leaving every other player's lock
untouched. -/
theorem buzz_lock_discipline (h : HostState) (sid peer : String) (now : Nat) :
    ((lockActive h.game.buzzerLockUntil now = true
        ∨ (∃ p, h.game.players.find? (fun x => x.id == sid) = some p
            ∧ lockActive p.buzzerLockUntil now = true)) →
      (handlePeerMessage h MsgBody.BUZZ sid peer now).1.game.activePlayerId
        = h.game.activePlayerId)
    ∧ List.Forall₂
        (fun p p' => p'.buzzerLockUntil =
          if p.id = sid then some (now + 2000) else p.buzzerLockUntil)
        h.game.players
        (handlePeerMessage h MsgBody.BUZZ_LOCKED_ATTEMPT sid peer now).1.game.players := by
  constructor
  · intro hlock
    simp only [handlePeerMessage]
    split
    case isFalse hg => rfl
    case isTrue hg =>
      rcases hg with ⟨hst, hap⟩
      split
      case isTrue hPers => rfl
      case isFalse hPers =>
        have hglob : lockActive h.game.buzzerLockUntil now = true := by
          rcases hlock with hglob | ⟨p, hfind, hpl⟩
          · exact hglob
          · rw [hfind] at hPers
            exact absurd hpl hPers
        rw [if_pos hglob]
  · simp only [handlePeerMessage]
    rw [List.forall₂_map_right_iff, List.forall₂_same]
    intro p _
    by_cases hpe : p.id = sid <;> simp [hpe]

/-- Witness for C2 at the concrete state `hW2`: the global lock runs until
time 1000, so a `BUZZ` from `p1` at time 5 leaves nobody active, and a
`BUZZ_LOCKED_ATTEMPT` from `p1` at time 5 re-arms `p1`'s personal lock to
2005. -/
theorem buzz_lock_discipline_witness :
    (handlePeerMessage hW2 MsgBody.BUZZ "p1" "x" 5).1.game.activePlayerId = none
    ∧ ((handlePeerMessage hW2 MsgBody.BUZZ_LOCKED_ATTEMPT "p1" "x" 5).1.game.players.map
        (·.buzzerLockUntil)) = [some 2005] := by
  have h := buzz_lock_discipline hW2 "p1" "x" 5
  have h1 := h.1 (Or.inl (by decide))
  exact ⟨by rw [h1]; decide, by decide⟩

/-- C9: a `PLAYER_JOIN` carrying the controller sentinel name is diverted
from the player list.  When the controller slot is already held by a
different remote peer, the state is left untouched and the joining
connection is sent a `REJECTED` envelope (delivered to it, since outbound
envelopes are addressed by the very peer id the connection registered
under); otherwise the sender claims the slot, `isHostControllerConnected`
becomes true and `players` is unchanged. -/
theorem controller_slot_single (h : HostState) (p : Player) (sid senderPeer : String)
    (now : Nat) (hname : p.name = "HOST_CONTROLLER") :
    (∀ pid, h.hostControllerPeerId = some pid → pid ≠ senderPeer →
      handlePeerMessage h (MsgBody.PLAYER_JOIN p) sid senderPeer now =
        (h, [(senderPeer,
              OutMsg.REJECTED "Another host controller is already connected.")]))
    ∧ ((h.hostControllerPeerId = none ∨ h.hostControllerPeerId = some senderPeer) →
      (handlePeerMessage h (MsgBody.PLAYER_JOIN p) sid senderPeer now).1.hostControllerPeerId
          = some senderPeer
      ∧ (handlePeerMessage h (MsgBody.PLAYER_JOIN p) sid senderPeer now).1.game.isHostControllerConnected
          = true
      ∧ (handlePeerMessage h (MsgBody.PLAYER_JOIN p) sid senderPeer now).1.game.players
          = h.game.players
      ∧ (handlePeerMessage h (MsgBody.PLAYER_JOIN p) sid senderPeer now).2 = [])
    ∧ (∀ conns (c : Conn) (m : OutMsg),
        conns.find? (fun x => x.peer == senderPeer) = some c → c.isOpen = true →
        sendToPeer conns senderPeer m = some (senderPeer, m)) := by
  have hnb : (p.name == "HOST_CONTROLLER") = true := beq_iff_eq.mpr hname
  refine ⟨?_, ?_, ?_⟩
  · intro pid hslot hne
    simp only [handlePeerMessage, hnb, if_true, hslot]
    rw [if_pos (by simpa using hne)]
  · intro hfree
    rcases hfree with hfree | hfree <;>
      simp [handlePeerMessage, hnb, hfree]
  · intro conns c m hfind hopen
    simp only [sendToPeer, hfind, hopen, if_true]

/-- Witness for C9 at the concrete state `hW9`: its controller slot is held
by peer `"other"`, so the controller join arriving from peer `"newpeer"` is
rejected and nothing changes. -/
theorem controller_slot_single_witness :
    handlePeerMessage hW9 (MsgBody.PLAYER_JOIN ctrlP) "s" "newpeer" 0 =
      (hW9, [("newpeer",
              OutMsg.REJECTED "Another host controller is already connected.")]) := by
  exact (controller_slot_single hW9 ctrlP "s" "newpeer" 0 rfl).1 "other" rfl (by decide)

/-- Mapping a function that never changes a player's id leaves the list of
player ids unchanged. -/
theorem map_map_id {f : Player → Player} (hf : ∀ p, (f p).id = p.id) :
    ∀ l : List Player, (l.map f).map (·.id) = l.map (·.id)
  | [] => rfl
  | p :: ps => by simp only [List.map_cons, hf p, map_map_id hf ps]

/-- The active-player invariant only looks at `activePlayerId`, `status` and
the player ids, so it transfers between states agreeing on those. -/
theorem activeOk_same {s s' : GameState}
    (hap : s'.activePlayerId = s.activePlayerId)
    (hst : s'.status = s.status)
    (hpl : s'.players.map (·.id) = s.players.map (·.id)) :
    ActiveOk s → ActiveOk s' := by
  intro h
  unfold ActiveOk at *
  rw [hap, hst, hpl]
  exact h

/-- Membership among the player ids survives an id-preserving map. -/
theorem mem_map_id_of_mem {f : Player → Player} (hf : ∀ p, (f p).id = p.id)
    {l : List Player} {pid : String} (h : pid ∈ l.map (·.id)) :
    pid ∈ (l.map f).map (·.id) := by
  rw [map_map_id hf]
  exact h

/-- An id-preserving update of the player list preserves the active-player
invariant. -/
theorem activeOk_map {s : GameState} {f : Player → Player}
    (hf : ∀ p, (f p).id = p.id) (h : ActiveOk s) :
    ActiveOk { s with players := s.players.map f } := by
  rcases h with hnone | ⟨pid, hm, hap, hor⟩
  · exact Or.inl hnone
  · exact Or.inr ⟨pid, mem_map_id_of_mem hf hm, hap, hor⟩

/-- Appending a joining player preserves the active-player invariant. -/
theorem activeOk_append {s : GameState} (p : Player) (h : ActiveOk s) :
    ActiveOk { s with players := s.players ++ [p] } := by
  rcases h with hnone | ⟨pid, hm, hap, hor⟩
  · exact Or.inl hnone
  · refine Or.inr ⟨pid, ?_, hap, hor⟩
    rw [List.map_append]
    exact List.mem_append_left _ hm

/-- C3 (amended): the active-player invariant `ActiveOk` is preserved by
every message the host handles, provided the message is not a `KICK_PLAYER`
naming the currently active player, not a `BUZZ` from a sender absent from
`players`, and not a `START_GAME` while a player is active — the three
operations the code lets break it. -/
theorem active_player_invariant_preserved (h : HostState) (msg : MsgBody)
    (sid peer : String) (now : Nat)
    (hInv : ActiveOk h.game)
    (hKick : ∀ t, msg = MsgBody.HOST_ACTION (HostAction.KICK_PLAYER t) →
      h.game.activePlayerId ≠ some t)
    (hBuzz : msg = MsgBody.BUZZ → sid ∈ h.game.players.map (·.id))
    (hStart : msg = MsgBody.HOST_ACTION HostAction.START_GAME →
      h.game.activePlayerId = none) :
    ActiveOk (handlePeerMessage h msg sid peer now).1.game := by
  cases msg with
  | PLAYER_JOIN p =>
    simp only [handlePeerMessage]
    by_cases hn : (p.name == "HOST_CONTROLLER") = true
    · rw [if_pos hn]
      split
      · split
        · exact hInv
        · exact activeOk_same rfl rfl rfl hInv
      · exact activeOk_same rfl rfl rfl hInv
    · rw [if_neg hn]
      split
      · exact activeOk_append p hInv
      · exact hInv
  | BUZZ =>
    simp only [handlePeerMessage]
    split
    case isFalse => exact hInv
    case isTrue hg =>
      obtain ⟨hst, -⟩ := hg
      split
      · exact hInv
      · split
        · exact hInv
        · exact Or.inr ⟨sid, hBuzz rfl, rfl, Or.inl hst⟩
  | BUZZ_LOCKED_ATTEMPT =>
    simp only [handlePeerMessage]
    refine activeOk_map ?_ hInv
    intro p
    by_cases hpe : (p.id == sid) = true <;> simp [hpe]
  | HOST_ACTION a =>
    simp only [handlePeerMessage, handleHostAction]
    cases a with
    | CORRECT =>
      simp only [hostActionCorrect]
      split
      case h_2 => exact hInv
      case h_1 q pid heq1 heq2 =>
        have hmem : pid ∈ h.game.players.map (·.id) := by
          rcases hInv with hnone | ⟨pid2, hm, hap, -⟩
          · rw [hnone] at heq2; cases heq2
          · rw [hap] at heq2
            injection heq2 with he
            rw [← he]; exact hm
        refine Or.inr ⟨pid, ?_, rfl, Or.inr rfl⟩
        refine mem_map_id_of_mem (fun p => ?_) hmem
        by_cases hpe : (p.id == pid) = true <;> simp [hpe]
    | INCORRECT =>
      simp only [handleIncorrect]
      split
      case h_1 => exact Or.inl rfl
      case h_2 => exact hInv
    | CONTINUE =>
      simp only [finishReveal]
      split <;> exact Or.inl rfl
    | SELECT_QUESTION qid =>
      cases hfq : findQuestion h.game.categories qid with
      | none => simp only [hfq]; exact hInv
      | some q =>
        simp only [hfq]
        split
        case isTrue hg =>
          obtain ⟨-, hstP⟩ := hg
          simp only [selectQuestion]
          rw [if_pos hstP]
          refine Or.inl ?_
          rcases hInv with hnone | ⟨pid, -, hap, hor⟩
          · exact hnone
          · rcases hor with h1 | h1 <;> rw [hstP] at h1 <;> cases h1
        case isFalse => exact hInv
    | RENAME_PLAYER pid nn =>
      refine activeOk_map ?_ hInv
      intro p
      by_cases hpe : (p.id == pid) = true <;> simp [hpe]
    | OVERRIDE_SCORE pid ns =>
      refine activeOk_map ?_ hInv
      intro p
      by_cases hpe : (p.id == pid) = true <;> simp [hpe]
    | KICK_PLAYER t =>
      rcases hInv with hnone | ⟨pid, hm, hap, hor⟩
      · exact Or.inl hnone
      · refine Or.inr ⟨pid, ?_, hap, hor⟩
        have hne : pid ≠ t := fun he => hKick t rfl (he ▸ hap)
        simp only [List.mem_map] at hm ⊢
        obtain ⟨p, hp, hpid⟩ := hm
        refine ⟨p, ?_, hpid⟩
        rw [List.mem_filter]
        exact ⟨hp, by simp [bne_iff_ne, hpid, hne]⟩
    | START_GAME =>
      simp only [startGame]
      exact Or.inl (hStart rfl)
    | SKIP =>
      simp only [skipQuestion]
      split
      case h_1 => exact Or.inl rfl
      case h_2 => exact hInv
    | RELEASE_BUZZER => exact activeOk_same rfl rfl rfl hInv

/-- Counterexample to C3 as stated: in state `h3` the invariant holds (`p1`
is active and present during `QUESTION_ACTIVE`), yet a `KICK_PLAYER` of the
active player `p1` removes the player while leaving `activePlayerId` set, so
the resulting authoritative state violates the invariant. -/
theorem active_player_invariant_kick_cx :
    ActiveOk h3.game
    ∧ ¬ ActiveOk (handlePeerMessage h3
        (MsgBody.HOST_ACTION (HostAction.KICK_PLAYER "p1")) "c" "pc" 0).1.game := by
  decide

/-- Witness for the amended C3 at the concrete state `h3`: a
`RELEASE_BUZZER` action (none of the three excluded operations) preserves
the invariant. -/
theorem active_player_invariant_preserved_witness :
    ActiveOk (handlePeerMessage h3
      (MsgBody.HOST_ACTION HostAction.RELEASE_BUZZER) "c" "pc" 0).1.game := by
  exact active_player_invariant_preserved h3 _ "c" "pc" 0 (by decide)
    (fun t ht => nomatch ht) (fun hb => nomatch hb) (fun hs => nomatch hs)

/-- Answered-flag monotonicity is reflexive. -/
theorem boardLe_refl (b : List Category) : boardLe b b := by
  unfold boardLe
  rw [List.forall₂_same]
  intro c _
  unfold catLe
  rw [List.forall₂_same]
  intro q _
  exact id

/-- Marking a question answered only ever raises answered flags. -/
theorem boardLe_markAnswered (qid : String) (b : List Category) :
    boardLe b (markAnswered qid b) := by
  unfold boardLe markAnswered
  rw [List.forall₂_map_right_iff, List.forall₂_same]
  intro c _
  unfold catLe
  rw [List.forall₂_map_right_iff, List.forall₂_same]
  intro q _ h
  by_cases hb : (q.id == qid) = true <;> simp [hb, questionLe, h]

/-- C7: the answered flag is monotonic.  Every message the host handles, and
each of the local operations (`handleCorrect`, `handleIncorrect`,
`skipQuestion`, `selectQuestion`, `finishReveal`), keeps the board the same
shape and never turns any question's `isAnswered` from true back to false. -/
theorem answered_monotonic (h : HostState) (msg : MsgBody) (sid peer : String)
    (now : Nat) (s : GameState) (q : Question) :
    boardLe h.game.categories (handlePeerMessage h msg sid peer now).1.game.categories
    ∧ boardLe s.categories (handleCorrect s).categories
    ∧ boardLe s.categories (handleIncorrect s now).categories
    ∧ boardLe s.categories (skipQuestion s).categories
    ∧ boardLe s.categories (selectQuestion s q now).categories
    ∧ boardLe s.categories (finishReveal s).categories := by
  refine ⟨?_, ?_, ?_, ?_, ?_, ?_⟩
  · cases msg with
    | PLAYER_JOIN p =>
      simp only [handlePeerMessage]
      split
      · split
        · split
          · exact boardLe_refl _
          · exact boardLe_refl _
        · exact boardLe_refl _
      · split
        · exact boardLe_refl _
        · exact boardLe_refl _
    | BUZZ =>
      simp only [handlePeerMessage]
      split
      · split
        · exact boardLe_refl _
        · split
          · exact boardLe_refl _
          · exact boardLe_refl _
      · exact boardLe_refl _
    | BUZZ_LOCKED_ATTEMPT => exact boardLe_refl _
    | HOST_ACTION a =>
      simp only [handlePeerMessage, handleHostAction]
      cases a with
      | CORRECT =>
        simp only [hostActionCorrect]
        split
        · exact boardLe_markAnswered _ _
        · exact boardLe_refl _
      | INCORRECT =>
        simp only [handleIncorrect]
        split
        · exact boardLe_refl _
        · exact boardLe_refl _
      | CONTINUE =>
        simp only [finishReveal]
        split
        · exact boardLe_refl _
        · exact boardLe_refl _
      | SELECT_QUESTION qid =>
        cases hfq : findQuestion h.game.categories qid with
        | none => simp only [hfq]; exact boardLe_refl _
        | some tq =>
          simp only [hfq]
          split
          · simp only [selectQuestion]
            split
            · exact boardLe_refl _
            · exact boardLe_refl _
          · exact boardLe_refl _
      | RENAME_PLAYER pid nn => exact boardLe_refl _
      | OVERRIDE_SCORE pid ns => exact boardLe_refl _
      | KICK_PLAYER t => exact boardLe_refl _
      | START_GAME => exact boardLe_refl _
      | SKIP =>
        simp only [skipQuestion]
        split
        · exact boardLe_markAnswered _ _
        · exact boardLe_refl _
      | RELEASE_BUZZER => exact boardLe_refl _
  · simp only [handleCorrect]
    split
    · split
      · exact boardLe_markAnswered _ _
      · exact boardLe_refl _
    · exact boardLe_refl _
  · simp only [handleIncorrect]
    split
    · exact boardLe_refl _
    · exact boardLe_refl _
  · simp only [skipQuestion]
    split
    · exact boardLe_markAnswered _ _
    · exact boardLe_refl _
  · simp only [selectQuestion]
    split
    · exact boardLe_refl _
    · exact boardLe_refl _
  · simp only [finishReveal]
    split
    · exact boardLe_refl _
    · exact boardLe_refl _

/-- Consing an element read at position `k` onto the list with position `k`
overwritten is a permutation of consing the overwriting element. -/
theorem cons_get_set_perm {α : Type} (x : α) :
    ∀ (xs : List α) (k : Nat) (b : α), xs.get? k = some b →
      List.Perm (b :: xs.set k x) (x :: xs)
  | [], _, _, h => nomatch h
  | y :: ys, 0, b, h => by
    injection h with h
    subst h
    exact List.Perm.swap _ _ _
  | y :: ys, k + 1, b, h => by
    have ih := cons_get_set_perm x ys k b h
    have h1 : List.Perm (b :: y :: ys.set k x) (y :: b :: ys.set k x) :=
      List.Perm.swap y b _
    have h2 : List.Perm (y :: b :: ys.set k x) (y :: x :: ys) :=
      List.Perm.cons y ih
    have h3 : List.Perm (y :: x :: ys) (x :: y :: ys) := List.Perm.swap x y ys
    exact h1.trans (h2.trans h3)

/-- Swapping the entries at two valid positions permutes the list. -/
theorem set_set_perm {α : Type} :
    ∀ (l : List α) (i j : Nat) (a b : α),
      l.get? i = some a → l.get? j = some b →
      List.Perm ((l.set i b).set j a) l
  | [], _, _, _, _, ha, _ => nomatch ha
  | x :: xs, 0, 0, a, b, ha, hb => by
    injection ha with ha
    injection hb with hb
    subst ha
    subst hb
    exact List.Perm.refl _
  | x :: xs, 0, k + 1, a, b, ha, hb => by
    injection ha with ha
    subst ha
    exact cons_get_set_perm x xs k b hb
  | x :: xs, m + 1, 0, a, b, ha, hb => by
    injection hb with hb
    subst hb
    exact cons_get_set_perm x xs m a ha
  | x :: xs, m + 1, k + 1, a, b, ha, hb =>
    List.Perm.cons x (set_set_perm xs m k a b ha hb)

/-- Each Fisher-Yates swap permutes the index list. -/
theorem swapIdx_perm (l : List Nat) (i j : Nat) : List.Perm (swapIdx l i j) l := by
  unfold swapIdx
  cases ha : l.get? i with
  | none => exact List.Perm.refl _
  | some a =>
    cases hb : l.get? j with
    | none => exact List.Perm.refl _
    | some b => exact set_set_perm l i j a b ha hb

/-- The whole Fisher-Yates loop permutes the index list. -/
theorem fyGo_perm (js : Nat → Nat) :
    ∀ (i : Nat) (l : List Nat), List.Perm (fyGo js i l) l
  | 0, l => List.Perm.refl l
  | i + 1, l =>
    List.Perm.trans (fyGo_perm js i _) (swapIdx_perm l (i + 1) (js (i + 1) % (i + 2)))

/-- The shuffled index list is a permutation of `[0, ..., n-1]`. -/
theorem shuffleIndices_perm (js : Nat → Nat) (n : Nat) :
    List.Perm (shuffleIndices js n) (List.range n) :=
  fyGo_perm js (n - 1) _

/-- The golden indices are pairwise distinct. -/
theorem goldenIndicesOf_nodup (js : Nat → Nat) (cats : List Category) :
    (goldenIndicesOf js cats).Nodup := by
  have hs : (shuffleIndices js (totalCount cats)).Nodup :=
    (shuffleIndices_perm js (totalCount cats)).nodup_iff.mpr
      (List.nodup_range (totalCount cats))
  exact List.Nodup.sublist (List.take_sublist _ _) hs

/-- Every golden index is a valid flat question position. -/
theorem goldenIndicesOf_lt (js : Nat → Nat) (cats : List Category) :
    ∀ i ∈ goldenIndicesOf js cats, i < totalCount cats := by
  intro i hi
  have h1 : i ∈ shuffleIndices js (totalCount cats) :=
    (List.take_sublist _ _).subset hi
  exact List.mem_range.mp ((shuffleIndices_perm js _).mem_iff.mp h1)

/-- On a board with at least three questions there are exactly three golden
indices. -/
theorem goldenIndicesOf_length (js : Nat → Nat) (cats : List Category)
    (hn : 3 ≤ totalCount cats) : (goldenIndicesOf js cats).length = 3 := by
  unfold goldenIndicesOf
  rw [List.length_take, (shuffleIndices_perm js _).length_eq, List.length_range]
  exact Nat.min_eq_left hn

/-- The position-indexed map distributes over append, with the counter moved
past the first part. -/
theorem flagQuestionsGo_append (f : Nat → Question → Question) :
    ∀ (l1 l2 : List Question) (k : Nat),
      flagQuestionsGo f k (l1 ++ l2) =
        flagQuestionsGo f k l1 ++ flagQuestionsGo f (k + l1.length) l2
  | [], l2, k => by simp [flagQuestionsGo]
  | q :: qs, l2, k => by
    have ih := flagQuestionsGo_append f qs l2 (k + 1)
    have h2 : k + (q :: qs).length = k + 1 + qs.length := by
      simp only [List.length_cons]
      omega
    show f k q :: flagQuestionsGo f (k + 1) (qs ++ l2) = _
    rw [ih, h2]
    rfl

/-- Flattening a board flagged per category equals flagging the flattened
question list: the running counter walks the questions in flat order. -/
theorem allQuestionsOf_flagCatsGo (f : Nat → Question → Question) :
    ∀ (cats : List Category) (k : Nat),
      allQuestionsOf (flagCatsGo f k cats) = flagQuestionsGo f k (allQuestionsOf cats)
  | [], _ => rfl
  | c :: cs, k => by
    simp only [allQuestionsOf, flagCatsGo, List.map_cons, List.flatten_cons]
    rw [flagQuestionsGo_append f c.questions _ k]
    have ih := allQuestionsOf_flagCatsGo f cs (k + c.questions.length)
    simp only [allQuestionsOf] at ih
    rw [ih]

/-- Two successive position-indexed passes compose pointwise. -/
theorem flagQuestionsGo_comp (f g : Nat → Question → Question) :
    ∀ (l : List Question) (k : Nat),
      flagQuestionsGo f k (flagQuestionsGo g k l) =
        flagQuestionsGo (fun i q => f i (g i q)) k l
  | [], _ => rfl
  | q :: qs, k => by
    simp only [flagQuestionsGo, flagQuestionsGo_comp f g qs (k + 1)]

/-- A position-indexed map preserves the list length. -/
theorem length_flagQuestionsGo (f : Nat → Question → Question) :
    ∀ (l : List Question) (k : Nat), (flagQuestionsGo f k l).length = l.length
  | [], _ => rfl
  | q :: qs, k => by
    simp [flagQuestionsGo, length_flagQuestionsGo f qs (k + 1)]

/-- Every element of a position-indexed map comes from applying the function
at a definite position to a definite source question. -/
theorem of_mem_flagQuestionsGo (f : Nat → Question → Question) :
    ∀ (l : List Question) (k : Nat) (q' : Question), q' ∈ flagQuestionsGo f k l →
      ∃ i q, l.get? i = some q ∧ q' = f (k + i) q
  | [], _, _, h => nomatch h
  | q :: qs, k, q', h => by
    rcases List.mem_cons.mp h with h | h
    · exact ⟨0, q, rfl, by simpa using h⟩
    · obtain ⟨i, q0, hget, heq⟩ := of_mem_flagQuestionsGo f qs (k + 1) q' h
      exact ⟨i + 1, q0, hget, by rw [heq]; congr 1; omega⟩

/-- Counting a flag after a position-indexed pass that decides the flag
purely by position counts the accepted positions. -/
theorem countP_flagQuestionsGo (f : Nat → Question → Question)
    (p : Question → Bool) (test : Nat → Bool) :
    ∀ (l : List Question) (k : Nat), (∀ i q, q ∈ l → p (f i q) = test i) →
      (flagQuestionsGo f k l).countP p = (List.range' k l.length).countP test
  | [], _, _ => by simp [flagQuestionsGo]
  | q :: qs, k, h => by
    simp only [flagQuestionsGo, List.countP_cons, List.length_cons,
      List.range'_succ]
    rw [countP_flagQuestionsGo f p test qs (k + 1)
      (fun i q hq => h i q (List.mem_cons_of_mem _ hq))]
    rw [h k q (List.mem_cons_self _ _)]

/-- A position-indexed pass that never touches the counted flag leaves the
count unchanged. -/
theorem countP_flagQuestionsGo_invariant (f : Nat → Question → Question)
    (p : Question → Bool) (hf : ∀ i q, p (f i q) = p q) :
    ∀ (l : List Question) (k : Nat), (flagQuestionsGo f k l).countP p = l.countP p
  | [], _ => rfl
  | q :: qs, k => by
    simp only [flagQuestionsGo, List.countP_cons, hf,
      countP_flagQuestionsGo_invariant f p hf qs (k + 1)]

/-- Counting the positions below `n` that belong to a duplicate-free set of
indices all below `n` yields the size of that set. -/
theorem countP_range_nodup (G : List Nat) (n : Nat) (hd : G.Nodup)
    (hlt : ∀ i ∈ G, i < n) :
    (List.range n).countP (fun i => G.contains i) = G.length := by
  rw [List.countP_eq_length_filter]
  have hperm : List.Perm ((List.range n).filter (fun i => G.contains i)) G := by
    rw [List.perm_ext_iff_of_nodup ((List.nodup_range n).filter _) hd]
    intro a
    rw [List.mem_filter]
    constructor
    · rintro ⟨-, hc⟩
      simpa using hc
    · intro ha
      exact ⟨List.mem_range.mpr (hlt a ha), by simpa using ha⟩
  exact hperm.length_eq

/-- Exactly one position below `n` casts to a given integer below `n`. -/
theorem countP_range_intCast (n v : Nat) (hv : v < n) :
    (List.range n).countP (fun i : Nat => decide ((i : Int) = (v : Int))) = 1 := by
  have he : (fun i : Nat => decide ((i : Int) = (v : Int))) = (fun i => i == v) := by
    funext i
    by_cases h : i = v
    · simp [h]
    · have hne : ¬((i : Int) = (v : Int)) := fun hh => h (Int.natCast_inj.mp hh)
      simp [h, hne]
  rw [he]
  exact List.count_eq_one_of_mem (List.nodup_range n) (List.mem_range.mpr hv)

/-- No position casts to the sentinel `-1`. -/
theorem countP_range_neg_one (n : Nat) :
    (List.range n).countP (fun i : Nat => decide ((i : Int) = (-1 : Int))) = 0 := by
  rw [List.countP_eq_zero]
  intro a _
  simp only [decide_eq_true_eq]
  omega

/-- The rejection loop either gives up with `-1` or returns a valid index
outside the golden set. -/
theorem pickRed_spec (qCount : Nat) (golden : List Nat) :
    ∀ rs : List Nat, pickRed rs qCount golden = -1 ∨
      ∃ v : Nat, pickRed rs qCount golden = (v : Int)
        ∧ golden.contains v = false ∧ (0 < qCount → v < qCount)
  | [] => Or.inl rfl
  | r :: rest => by
    simp only [pickRed]
    by_cases hc : (golden.contains (r % qCount)) = true
    · rw [if_pos hc]
      exact pickRed_spec qCount golden rest
    · rw [if_neg hc]
      exact Or.inr ⟨r % qCount, rfl, by simpa using hc,
        fun h => Nat.mod_lt r h⟩

/-- All questions of a flat board inherit cleanliness of the flags from the
per-category hypothesis. -/
theorem clean_allQuestionsOf {cats : List Category}
    (hc : ∀ c ∈ cats, ∀ q ∈ c.questions, q.isGolden = false ∧ q.isRed = false) :
    ∀ q ∈ allQuestionsOf cats, q.isGolden = false ∧ q.isRed = false := by
  intro q hq
  simp only [allQuestionsOf, List.mem_flatten, List.mem_map] at hq
  obtain ⟨l, ⟨c, hcmem, rfl⟩, hql⟩ := hq
  exact hc c hcmem q hql

/-- C8 (amended): on any generated board with at least three questions and
clean flags, for every outcome of the random draws the initialization flags
exactly 3 distinct questions golden, never flags a question both golden and
red, and flags exactly one question red when the bounded rejection loop
finds a non-golden index — and zero questions red when all its draws land on
golden indices. -/
theorem golden_red_makeup (cats : List Category) (js : Nat → Nat) (rs : List Nat)
    (hclean : ∀ c ∈ cats, ∀ q ∈ c.questions, q.isGolden = false ∧ q.isRed = false)
    (hn : 3 ≤ totalCount cats) :
    countGolden (initBoard js rs cats) = 3
    ∧ (∀ q ∈ allQuestionsOf (initBoard js rs cats),
        ¬(q.isGolden = true ∧ q.isRed = true))
    ∧ countRed (initBoard js rs cats) =
        (if pickRed rs (totalCount cats) (goldenIndicesOf js cats) = -1
         then 0 else 1) := by
  have hflat0 := clean_allQuestionsOf hclean
  have hGnd := goldenIndicesOf_nodup js cats
  have hGlt := goldenIndicesOf_lt js cats
  have hGlen := goldenIndicesOf_length js cats hn
  have hboard : allQuestionsOf (initBoard js rs cats) =
      flagQuestionsGo
        (redFlag (pickRed rs (totalCount cats) (goldenIndicesOf js cats))) 0
        (flagQuestionsGo (goldenFlag (goldenIndicesOf js cats)) 0
          (allQuestionsOf cats)) := by
    simp only [initBoard, flagBoard]
    rw [allQuestionsOf_flagCatsGo, allQuestionsOf_flagCatsGo]
  have hcleanG : ∀ q ∈ flagQuestionsGo (goldenFlag (goldenIndicesOf js cats)) 0
      (allQuestionsOf cats), q.isRed = false := by
    intro q hq
    obtain ⟨i, q0, hget, heq⟩ := of_mem_flagQuestionsGo _ _ _ _ hq
    rw [heq]
    unfold goldenFlag
    split
    · exact (hflat0 q0 (List.get?_mem hget)).2
    · exact (hflat0 q0 (List.get?_mem hget)).2
  refine ⟨?_, ?_, ?_⟩
  · have hredinv : ∀ (i : Nat) (q : Question),
        (redFlag (pickRed rs (totalCount cats) (goldenIndicesOf js cats)) i q).isGolden
          = q.isGolden := by
      intro i q
      unfold redFlag
      split <;> rfl
    have hgold : ∀ (i : Nat) (q : Question), q ∈ allQuestionsOf cats →
        (goldenFlag (goldenIndicesOf js cats) i q).isGolden
          = (goldenIndicesOf js cats).contains i := by
      intro i q hq
      by_cases hm : i ∈ goldenIndicesOf js cats <;>
        simp [goldenFlag, hm, (hflat0 q hq).1]
    unfold countGolden
    rw [hboard,
      countP_flagQuestionsGo_invariant _ _ hredinv,
      countP_flagQuestionsGo _ _
        (fun i : Nat => (goldenIndicesOf js cats).contains i) _ 0 hgold,
      ← List.range_eq_range' _]
    exact (countP_range_nodup _ _ hGnd hGlt).trans hGlen
  · rw [hboard]
    intro q' hq' hcon
    obtain ⟨hg, hr⟩ := hcon
    rw [flagQuestionsGo_comp] at hq'
    obtain ⟨i, q0, hget, heq⟩ := of_mem_flagQuestionsGo _ _ _ _ hq'
    have hq0 := hflat0 q0 (List.get?_mem hget)
    subst heq
    by_cases hri : ((0 + i : Nat) : Int)
        = pickRed rs (totalCount cats) (goldenIndicesOf js cats)
    · have hgi : (goldenIndicesOf js cats).contains (0 + i) = true := by
        unfold redFlag goldenFlag at hg
        rw [if_pos hri] at hg
        by_cases hc : ((goldenIndicesOf js cats).contains (0 + i)) = true
        · exact hc
        · rw [if_neg hc] at hg
          simp [hq0.1] at hg
      rcases pickRed_spec (totalCount cats) (goldenIndicesOf js cats) rs with
        hsp | ⟨v, hv, hvnc, -⟩
      · rw [hsp] at hri
        omega
      · rw [hv] at hri
        have hiv : (0 + i) = v := Int.natCast_inj.mp hri
        rw [hiv, hvnc] at hgi
        exact absurd hgi (by simp)
    · unfold redFlag goldenFlag at hr
      rw [if_neg hri] at hr
      by_cases hc : ((goldenIndicesOf js cats).contains (0 + i)) = true
      · rw [if_pos hc] at hr
        simp [hq0.2] at hr
      · rw [if_neg hc] at hr
        simp [hq0.2] at hr
  · have hred : ∀ (i : Nat) (q : Question),
        q ∈ flagQuestionsGo (goldenFlag (goldenIndicesOf js cats)) 0
          (allQuestionsOf cats) →
        (redFlag (pickRed rs (totalCount cats) (goldenIndicesOf js cats)) i q).isRed
          = decide ((i : Int)
              = pickRed rs (totalCount cats) (goldenIndicesOf js cats)) := by
      intro i q hq
      unfold redFlag
      by_cases hi : ((i : Nat) : Int)
          = pickRed rs (totalCount cats) (goldenIndicesOf js cats)
      · rw [if_pos hi]
        simp [hi]
      · rw [if_neg hi]
        simp [hi, hcleanG q hq]
    unfold countRed
    rw [hboard, countP_flagQuestionsGo _ _
        (fun i : Nat => decide ((i : Int)
          = pickRed rs (totalCount cats) (goldenIndicesOf js cats))) _ 0 hred,
      length_flagQuestionsGo, ← List.range_eq_range' _]
    rcases pickRed_spec (totalCount cats) (goldenIndicesOf js cats) rs with
      hsp | ⟨v, hv, -, hvlt⟩
    · simp only [hsp, if_true]
      exact countP_range_neg_one _
    · simp only [hv]
      rw [if_neg (by omega)]
      exact countP_range_intCast _ v (hvlt (by omega))

/-- Counterexample to C8 as stated: with the shuffle draws `js i = i` (every
swap is a self-swap, so the golden indices are 0, 1, 2) and all 100 red
draws equal to 0 (a golden index, so every rejection attempt fails), the
initialized board carries 3 golden questions but zero red questions — not
exactly one. -/
theorem golden_red_makeup_cx :
    countGolden (initBoard (fun i => i) (List.replicate 100 0) exCats) = 3
    ∧ countRed (initBoard (fun i => i) (List.replicate 100 0) exCats) = 0 := by
  decide

/-- Witness for the amended C8: on the generated board `exCats` with the
identity shuffle draws and the single red draw 3 (not golden), the board
gets exactly 3 golden questions and exactly 1 red question. -/
theorem golden_red_makeup_witness :
    countGolden (initBoard (fun i => i) [3] exCats) = 3
    ∧ countRed (initBoard (fun i => i) [3] exCats) = 1 := by
  have h := golden_red_makeup exCats (fun i => i) [3] (by decide) (by decide)
  refine ⟨h.1, ?_⟩
  rw [h.2.2]
  decide

end Jeopardy
